import Mathlib

/-!
Verification of the subtitle entry derivation and rendering-format
generation engine of the Sub-Gen repository.

The development shallowly embeds the TypeScript source:
JavaScript numbers are modelled by exact rational arithmetic (ℚ),
JavaScript strings by Lean strings (chars where slicing matters),
and each source function becomes a Lean definition of the same name.
-/

namespace SubGen

/-- JavaScript Math.round: floor of x + 1/2 (halves round toward positive infinity). -/
def jsRound (x : ℚ) : ℤ := ⌊x + 1/2⌋

/-- Truncation of a rational toward zero, as JavaScript division-based remainder needs. -/
def ratTrunc (x : ℚ) : ℤ := if 0 ≤ x then ⌊x⌋ else ⌈x⌉

/-- JavaScript remainder a % b: a - b * trunc (a / b), sign follows the dividend. -/
def jsMod (a b : ℚ) : ℚ := a - b * ratTrunc (a / b)

/-- JavaScript String.prototype.padStart with a single pad character, on char lists. -/
def jsPadStart (len : Nat) (c : Char) (s : List Char) : List Char :=
  List.replicate (len - s.length) c ++ s

/-- JavaScript str.replace(pat, empty string) for a one-character pattern:
removes the first occurrence only. -/
def replaceFirst : List Char → Char → List Char
  | [], _ => []
  | x :: xs, c => if x = c then xs else x :: replaceFirst xs c

/-- JavaScript String.prototype.trim: whitespace removed from both ends. -/
def jsTrim (s : String) : String :=
  String.mk (((s.data.dropWhile Char.isWhitespace).reverse.dropWhile Char.isWhitespace).reverse)

/-- Lowercase hexadecimal digit character for a value below 16,
as produced by JavaScript Number.prototype.toString with radix 16. -/
def hexDigitLower (n : Nat) : Char :=
  if n < 10 then Char.ofNat (48 + n) else Char.ofNat (97 + n - 10)

/-- Fueled accumulator loop producing base-16 digits, most significant first. -/
def natToHexAux (fuel : Nat) (n : Nat) (acc : List Char) : List Char :=
  match fuel with
  | 0 => acc
  | fuel' + 1 =>
    if n < 16 then hexDigitLower n :: acc
    else natToHexAux fuel' (n / 16) (hexDigitLower (n % 16) :: acc)

/-- Digits of a natural number in base 16, most significant first, lowercase,
as JavaScript Number.prototype.toString with radix 16 renders integers. -/
def natToHexLower (n : Nat) : List Char := natToHexAux (n + 1) n []

/-- JavaScript toString with radix 16 on an integer-valued number. -/
def jsIntToHex (i : ℤ) : List Char :=
  if i < 0 then '-' :: natToHexLower i.natAbs else natToHexLower i.toNat

/-- JavaScript x || d for a numeric x: d when x is 0 (falsy), x otherwise. -/
def jsOrQ (x d : ℚ) : ℚ := if x = 0 then d else x

/-- JavaScript s || d for a string s: d when s is empty (falsy), s otherwise. -/
def jsOrStr (s d : String) : String := if s = "" then d else s

/-- JavaScript v || d for an optional natural number: d when v is missing or 0. -/
def jsOrNat (v : Option Nat) (d : Nat) : Nat :=
  match v with
  | some n => if n = 0 then d else n
  | none => d

/-- Decimal digit run parse used by JavaScript parseInt on the digit part. -/
def parseDecDigits (cs : List Char) : Option Nat :=
  let ds := cs.takeWhile Char.isDigit
  if ds = [] then none else some (ds.foldl (fun a c => 10 * a + (c.toNat - 48)) 0)

/-- JavaScript parseInt on a plain decimal string: none models NaN. -/
def jsParseInt (s : String) : Option ℤ :=
  match s.data with
  | '-' :: rest => (parseDecDigits rest).map (fun n => -(n : ℤ))
  | cs => (parseDecDigits cs).map (fun n => (n : ℤ))

/-- Hexadecimal digit predicate, stated from the specification to express
what a well-formed hex color character is. -/
def isHexDigitChar (c : Char) : Bool :=
  c.isDigit || ('a' ≤ c && c ≤ 'f') || ('A' ≤ c && c ≤ 'F')

/-- Uppercase hexadecimal digit character for a value below 16. -/
def hexDigitUpper (n : Nat) : Char := (hexDigitLower n).toUpper

/-- Two uppercase hexadecimal digits of a byte value, stated from the
specification wording for the packed color alpha byte. -/
def hexBytePair (n : Nat) : List Char := [hexDigitUpper (n / 16), hexDigitUpper (n % 16)]

/-- Alpha byte the specification prescribes for the packed ASS color:
round of (1 - opacity) * 255, rendered as two uppercase hex digits. -/
def specAlphaByte (opacity : ℚ) : List Char := hexBytePair (jsRound ((1 - opacity) * 255)).toNat

/-- Word-level timestamp record of a transcript segment (frontend/types.ts). -/
structure Word where
  text : String
  startTime : ℚ
  endTime : ℚ
deriving DecidableEq

/-- Transcript segment (Subtitle in frontend/types.ts): id, time range, text,
and the optional word-level timestamps. -/
structure Subtitle where
  id : String
  startTime : ℚ
  endTime : ℚ
  text : String
  words : Option (List Word)
deriving DecidableEq

/-- Display mode union type of the style configuration. -/
inductive DisplayMode
  | sentence
  | word
  | phrase
deriving DecidableEq

/-- Style configuration consumed by the entry builder and the ASS generator
(StyleConfig in frontend/types.ts, with the display fields used by the engine). -/
structure StyleConfig where
  fontFamily : String
  fontSize : ℚ
  color : String
  backgroundColor : String
  backgroundOpacity : ℚ
  yAlign : ℚ
  fontWeight : String
  displayMode : DisplayMode
  wordsPerLine : Option Nat
deriving DecidableEq

/-- Flattened subtitle entry, the unified output of buildSubtitleEntries. -/
structure SubtitleEntry where
  text : String
  startTime : ℚ
  endTime : ℚ
deriving DecidableEq

/-- Effective wordsPerLine: styleConfig.wordsPerLine || 3 in the source. -/
def wordsPerLineOf (cfg : StyleConfig) : Nat := jsOrNat cfg.wordsPerLine 3

/-- Sentence-mode entry for a segment: trimmed segment text with the segment's times. -/
def sentenceEntry (s : Subtitle) : SubtitleEntry :=
  { text := jsTrim s.text, startTime := s.startTime, endTime := s.endTime }

/-- Word-mode loop of buildSubtitleEntries: one entry per word, the end time
extended to the next word's start (clamped by the segment end) to fill gaps,
the last word ending at the segment end. -/
def wordEntries (segEnd : ℚ) : List Word → List SubtitleEntry
  | [] => []
  | [w] => [{ text := jsTrim w.text, startTime := w.startTime, endTime := segEnd }]
  | w :: w' :: ws =>
    { text := jsTrim w.text, startTime := w.startTime,
      endTime := min w'.startTime segEnd } :: wordEntries segEnd (w' :: ws)

/-- Punctuation test of the export-side phrase chunker: the regex with
period, question mark, exclamation mark, comma, semicolon and colon. -/
def exportPunct (t : String) : Bool :=
  t.data.any (fun c => c ∈ ['.', '?', '!', ',', ';', ':'])

/-- Chunk text emission: each word trimmed, joined by single spaces. -/
def joinTrimmed (chunk : List Word) : String :=
  String.intercalate " " (chunk.map (fun w => jsTrim w.text))

/-- Chunk start bookkeeping of the phrase loop: the start time is overwritten
by the word's own start whenever the chunk is empty at the top of the loop. -/
def chunkStartOf (chunk : List Word) (w : Word) (chunkStart : ℚ) : ℚ :=
  if chunk.isEmpty then w.startTime else chunkStart

/-- Break condition of the export-side phrase loop after the word is pushed:
the count reached wordsPerLine, or the word carries punctuation and the chunk
holds more than one word. -/
def exportBreak (wpl : Nat) (w : Word) (wc' : Nat) : Prop :=
  wpl ≤ wc' ∨ (exportPunct w.text = true ∧ 1 < wc')

instance (wpl : Nat) (w : Word) (wc' : Nat) : Decidable (exportBreak wpl w wc') := by
  unfold exportBreak; infer_instance

/-- Phrase-mode loop of buildSubtitleEntries over the remaining words, carrying
the current chunk, its start time and the running word count; the last word of
the segment forces an emission. -/
def phraseLoop (wpl : Nat) (segEnd : ℚ) : List Word → List Word → ℚ → Nat → List SubtitleEntry
  | [], _, _, _ => []
  | [w], chunk, chunkStart, _ =>
    [{ text := joinTrimmed (chunk ++ [w]), startTime := chunkStartOf chunk w chunkStart,
       endTime := segEnd }]
  | w :: next :: rest', chunk, chunkStart, wc =>
    if exportBreak wpl w (wc + 1) then
      { text := joinTrimmed (chunk ++ [w]), startTime := chunkStartOf chunk w chunkStart,
        endTime := min next.startTime segEnd } ::
        phraseLoop wpl segEnd (next :: rest') [] (chunkStartOf chunk w chunkStart) 0
    else
      phraseLoop wpl segEnd (next :: rest') (chunk ++ [w]) (chunkStartOf chunk w chunkStart) (wc + 1)

/-- Ghost companion of phraseLoop: the groups of words it chunks, with the
same break decisions, used to state chunk-size facts. -/
def phraseChunks (wpl : Nat) : List Word → List Word → Nat → List (List Word)
  | [], _, _ => []
  | [w], chunk, _ => [chunk ++ [w]]
  | w :: next :: rest', chunk, wc =>
    if exportBreak wpl w (wc + 1) then
      (chunk ++ [w]) :: phraseChunks wpl (next :: rest') [] 0
    else
      phraseChunks wpl (next :: rest') (chunk ++ [w]) (wc + 1)

/-- Per-segment part of buildSubtitleEntries: sentence mode gives one entry,
missing or empty words fall back to the sentence entry, word and phrase modes
run their respective loops. -/
def segmentEntries (cfg : StyleConfig) (s : Subtitle) : List SubtitleEntry :=
  match cfg.displayMode with
  | DisplayMode.sentence => [sentenceEntry s]
  | DisplayMode.word =>
    match s.words with
    | none => [sentenceEntry s]
    | some [] => [sentenceEntry s]
    | some (w :: ws) => wordEntries s.endTime (w :: ws)
  | DisplayMode.phrase =>
    match s.words with
    | none => [sentenceEntry s]
    | some [] => [sentenceEntry s]
    | some (w :: ws) => phraseLoop (wordsPerLineOf cfg) s.endTime (w :: ws) [] w.startTime 0

/-- Export-side entry derivation (buildSubtitleEntries in the source):
segments processed independently, entries concatenated in input order. -/
def buildSubtitleEntries (subtitles : List Subtitle) (cfg : StyleConfig) : List SubtitleEntry :=
  subtitles.flatMap (segmentEntries cfg)

/-- Active-subtitle test of the preview overlay: the playback time lies in
the segment's closed time range. -/
def isActive (t : ℚ) (s : Subtitle) : Bool :=
  decide (s.startTime ≤ t ∧ t ≤ s.endTime)

/-- Backward scan of getDisplayedText: the last word index whose start time
has been reached, when no word is currently active. -/
def lastStartedIdx (ws : List Word) (t : ℚ) : Option Nat :=
  ((ws.enum.filter (fun p => decide (p.2.startTime ≤ t))).getLast?).map Prod.fst

/-- Punctuation test of the preview-side phrase chunker: the regex with only
period, question mark, exclamation mark and comma. -/
def previewPunct (t : String) : Bool :=
  t.data.any (fun c => c ∈ ['.', '?', '!', ','])

/-- Phrase branch of getDisplayedText: rebuild the chunks and return the one
whose index range contains the current word index; none models falling
through the loop. -/
def previewPhrase (tgt wpl : Nat) : List Word → Nat → List Word → Nat → Option String
  | [], _, _, _ => none
  | w :: rest, i, chunk, wc =>
    let chunk' := chunk ++ [w]
    let wc' := wc + 1
    let shouldBreak := wpl ≤ wc' ∨ (previewPunct w.text = true ∧ 1 < wc')
    if shouldBreak ∨ rest = [] then
      if i + 1 - wc' ≤ tgt ∧ tgt ≤ i then
        some (String.intercalate " " (chunk'.map (fun x => x.text)))
      else previewPhrase tgt wpl rest (i + 1) [] 0
    else previewPhrase tgt wpl rest (i + 1) chunk' wc'

/-- Live-preview text selection (getDisplayedText in the frontend source):
none models the null returned when no subtitle is active. -/
def getDisplayedText (subtitles : List Subtitle) (cfg : StyleConfig) (t : ℚ) : Option String :=
  match subtitles.find? (isActive t) with
  | none => none
  | some active =>
    if cfg.displayMode = DisplayMode.sentence then some active.text
    else match active.words with
    | none => some active.text
    | some [] => some active.text
    | some (w0 :: ws0) =>
      let ws := w0 :: ws0
      let currentWordIndex :=
        match ws.findIdx? (fun w => decide (w.startTime ≤ t ∧ t ≤ w.endTime)) with
        | some i => i
        | none => (lastStartedIdx ws t).getD 0
      if cfg.displayMode = DisplayMode.word then
        some ((ws.getD currentWordIndex { text := "", startTime := 0, endTime := 0 }).text)
      else if cfg.displayMode = DisplayMode.phrase then
        match previewPhrase currentWordIndex (wordsPerLineOf cfg) ws 0 [] 0 with
        | some s => some s
        | none => some active.text
      else some active.text

/-- Inner formatTime of generateSRTContent: hours, minutes, seconds zero-padded
to two digits, floored milliseconds zero-padded to three, comma separator. -/
def srtFormatTime (seconds : ℚ) : String :=
  let hours := ⌊seconds / 3600⌋
  let minutes := ⌊jsMod seconds 3600 / 60⌋
  let secs := ⌊jsMod seconds 60⌋
  let millis := ⌊jsMod seconds 1 * 1000⌋
  String.mk (jsPadStart 2 '0' (toString hours).data) ++ ":" ++
    String.mk (jsPadStart 2 '0' (toString minutes).data) ++ ":" ++
    String.mk (jsPadStart 2 '0' (toString secs).data) ++ "," ++
    String.mk (jsPadStart 3 '0' (toString millis).data)

/-- SRT document generation: 1-based index line, time range line, text, blank line. -/
def generateSRTContent (entries : List SubtitleEntry) : String :=
  String.join (entries.enum.map (fun p =>
    toString (p.1 + 1) ++ "\n" ++
    srtFormatTime p.2.startTime ++ " --> " ++ srtFormatTime p.2.endTime ++ "\n" ++
    p.2.text ++ "\n\n"))

/-- ASS timecode formatTime: unpadded hours, two-digit minutes and seconds,
floored centiseconds zero-padded to two, period separator. -/
def formatASSTime (seconds : ℚ) : String :=
  let hours := ⌊seconds / 3600⌋
  let minutes := ⌊jsMod seconds 3600 / 60⌋
  let secs := ⌊jsMod seconds 60⌋
  let centis := ⌊jsMod seconds 1 * 100⌋
  toString hours ++ ":" ++
    String.mk (jsPadStart 2 '0' (toString minutes).data) ++ ":" ++
    String.mk (jsPadStart 2 '0' (toString secs).data) ++ "." ++
    String.mk (jsPadStart 2 '0' (toString centis).data)

/-- Hex color to packed ASS color (hexToASSColor in the source): strip the
first hash, fall back to opaque white unless exactly six characters remain,
else emit marker, alpha byte from opacity, and the blue-green-red reordering,
uppercased. -/
def hexToASSColor (hex : String) (opacity : ℚ) : String :=
  let cleanHex := replaceFirst hex.data '#'
  if cleanHex.length ≠ 6 then "&H00FFFFFF"
  else
    let r := cleanHex.take 2
    let g := (cleanHex.drop 2).take 2
    let b := (cleanHex.drop 4).take 2
    let alpha := (jsPadStart 2 '0' (jsIntToHex (jsRound ((1 - opacity) * 255)))).map Char.toUpper
    String.mk (('&' :: 'H' :: (alpha ++ b ++ g ++ r)).map Char.toUpper)

/-- Dialogue text escaping of the ASS generator: newlines become the
backslash-N break, carriage returns are dropped. -/
def escapeASSText (s : String) : String :=
  String.mk (s.data.flatMap (fun c =>
    if c = '\n' then ['\\', 'N'] else if c = '\x0d' then [] else [c]))

/-- MarginV computation of generateASSContent: yAlign defaulted through
JavaScript truthiness, then round of videoHeight * (1 - yAlign / 100). -/
def assMarginV (cfg : StyleConfig) (videoHeight : ℚ) : ℤ :=
  jsRound (videoHeight * (1 - (jsOrQ cfg.yAlign 75) / 100))

/-- BorderStyle selection of generateASSContent: 3 (opaque box) for positive
background opacity, else 1 (outline). -/
def assBorderStyle (cfg : StyleConfig) : Nat :=
  if 0 < cfg.backgroundOpacity then 3 else 1

/-- BackColour of the generated style line: background color (defaulted to
black) packed with the truthiness-defaulted background opacity. -/
def assBackColor (cfg : StyleConfig) : String :=
  hexToASSColor (jsOrStr cfg.backgroundColor "#000000") (jsOrQ cfg.backgroundOpacity (3/5))

/-- PrimaryColour of the generated style line: text color defaulted to white,
packed at the default opacity 1. -/
def assPrimaryColor (cfg : StyleConfig) : String :=
  hexToASSColor (jsOrStr cfg.color "#FFFFFF") 1

/-- Bold flag of the generated style line: 1 when the parsed font weight
reaches 600, else 0. -/
def assBold (cfg : StyleConfig) : Nat :=
  match jsParseInt (jsOrStr cfg.fontWeight "400") with
  | some n => if 600 ≤ n then 1 else 0
  | none => 0

/-- ASS document generation: script header, the Default style line built from
the style configuration, then one dialogue event per entry. -/
def generateASSContent (entries : List SubtitleEntry) (cfg : StyleConfig)
    (videoWidth : ℚ) (videoHeight : ℚ) : String :=
  let header :=
    "[Script Info]\nScriptType: v4.00+\nPlayResX: " ++ toString videoWidth ++
    "\nPlayResY: " ++ toString videoHeight ++ "\nWrapStyle: 1\n\n[V4+ Styles]\n" ++
    "Format: Name, Fontname, Fontsize, PrimaryColour, SecondaryColour, OutlineColour, BackColour, Bold, Italic, Underline, StrikeOut, ScaleX, ScaleY, Spacing, Angle, BorderStyle, Outline, Shadow, Alignment, MarginL, MarginR, MarginV, Encoding\n" ++
    "Style: Default," ++ jsOrStr cfg.fontFamily "Arial" ++ "," ++ toString (jsOrQ cfg.fontSize 48) ++
    "," ++ assPrimaryColor cfg ++ ",&H000000FF,&H00000000," ++ assBackColor cfg ++
    "," ++ toString (assBold cfg) ++ ",0,0,0,100,100,0,0," ++ toString (assBorderStyle cfg) ++
    ",0,0,2,20,20," ++ toString (assMarginV cfg videoHeight) ++ ",1\n\n[Events]\n" ++
    "Format: Layer, Start, End, Style, Name, MarginL, MarginR, MarginV, Effect, Text\n"
  let events := entries.map (fun entry =>
    "Dialogue: 0," ++ formatASSTime entry.startTime ++ "," ++ formatASSTime entry.endTime ++
    ",Default,,0,0,0,," ++ escapeASSText entry.text)
  header ++ String.intercalate "\n" events

/-- Word well-formedness (data-model assumption): the word list, when present,
is ordered by start time. -/
def wordsSorted (s : Subtitle) : Prop :=
  List.Pairwise (fun a b : Word => a.startTime ≤ b.startTime) (s.words.getD [])

/-- Word well-formedness (data-model assumption): word start times lie inside
the segment's time range. -/
def wordsInRange (s : Subtitle) : Prop :=
  ∀ w ∈ s.words.getD [], s.startTime ≤ w.startTime ∧ w.startTime ≤ s.endTime

instance (s : Subtitle) : Decidable (wordsSorted s) := by
  unfold wordsSorted; infer_instance

instance (s : Subtitle) : Decidable (wordsInRange s) := by
  unfold wordsInRange; infer_instance

/-- Segment used to exhibit the preview/export chunking divergence: four
words where the second carries a semicolon. -/
def c1Seg : Subtitle :=
  { id := "s", startTime := 0, endTime := 10, text := "a b; c d",
    words := some [{ text := "a", startTime := 0, endTime := 1 },
                   { text := "b;", startTime := 1, endTime := 2 },
                   { text := "c", startTime := 2, endTime := 3 },
                   { text := "d", startTime := 3, endTime := 4 }] }

/-- Phrase-mode configuration with three words per line. -/
def c1Cfg : StyleConfig :=
  { fontFamily := "Arial", fontSize := 48, color := "#FFFFFF",
    backgroundColor := "#000000", backgroundOpacity := 0, yAlign := 75,
    fontWeight := "400", displayMode := DisplayMode.phrase, wordsPerLine := some 3 }

/-- Word-mode configuration. -/
def c9Cfg : StyleConfig :=
  { fontFamily := "Arial", fontSize := 48, color := "#FFFFFF",
    backgroundColor := "#000000", backgroundOpacity := 0, yAlign := 75,
    fontWeight := "400", displayMode := DisplayMode.word, wordsPerLine := none }

/-- Segment whose word list is not sorted by start time. -/
def c9Seg : Subtitle :=
  { id := "s", startTime := 0, endTime := 10, text := "w0 w1",
    words := some [{ text := "w0", startTime := 5, endTime := 6 },
                   { text := "w1", startTime := 1, endTime := 2 }] }

/-- Well-formed segment with two sorted in-range words. -/
def c9SegA : Subtitle :=
  { id := "a", startTime := 0, endTime := 3, text := "x y",
    words := some [{ text := "x", startTime := 0, endTime := 1 },
                   { text := "y", startTime := 1, endTime := 2 }] }

/-- Well-formed wordless segment following c9SegA. -/
def c9SegB : Subtitle :=
  { id := "b", startTime := 3, endTime := 5, text := "z", words := none }

attribute [local semireducible] Rat.add Rat.mul Rat.sub Rat.inv

theorem buildSubtitleEntries_cons (s : Subtitle) (rest : List Subtitle) (cfg : StyleConfig) :
    buildSubtitleEntries (s :: rest) cfg = segmentEntries cfg s ++ buildSubtitleEntries rest cfg := by
  simp [buildSubtitleEntries]

/-- C1: the export-side entry derivation and the live-preview text selection do
not agree. At time 5/2 inside this word-carrying segment, in phrase mode, the
single entry whose time interval contains the playback time reads "c d", while
getDisplayedText returns "a b; c": buildSubtitleEntries breaks chunks on the
semicolon, the preview does not. -/
theorem c1_preview_export_divergence :
    buildSubtitleEntries [c1Seg] c1Cfg =
      [{ text := "a b;", startTime := 0, endTime := 2 },
       { text := "c d", startTime := 2, endTime := 10 }] ∧
    (buildSubtitleEntries [c1Seg] c1Cfg).filter
        (fun en => decide (en.startTime ≤ 5/2 ∧ 5/2 ≤ en.endTime)) =
      [{ text := "c d", startTime := 2, endTime := 10 }] ∧
    getDisplayedText [c1Seg] c1Cfg (5/2) = some "a b; c" ∧
    c1Seg.startTime ≤ 5/2 ∧ 5/2 ≤ c1Seg.endTime ∧
    "c d" ≠ "a b; c" := by
  refine ⟨?_, ?_, ?_, ?_, ?_, ?_⟩ <;> decide

/-- C3 counterexample: 61.005 seconds is 0 hours, 1 minute, 1.005 seconds, so
the SRT formatter emits 00:01:01,005 and not the claimed 01:01:01,005. -/
theorem c3_srt_61005_counterexample :
    srtFormatTime (61005/1000) = "00:01:01,005" ∧
    srtFormatTime (61005/1000) ≠ "01:01:01,005" := by
  exact ⟨by decide, by decide⟩

/-- C3 (amended): under exact arithmetic the SRT formatter produces
00:00:00,000 for 0, 00:00:01,500 for 1.5 and 00:01:01,005 for 61.005, and the
ASS formatter produces 1:01:01.99 for 3661.999, flooring the fractional parts. -/
theorem c3_timecode_literals :
    srtFormatTime 0 = "00:00:00,000" ∧
    srtFormatTime (3/2) = "00:00:01,500" ∧
    srtFormatTime (61005/1000) = "00:01:01,005" ∧
    formatASSTime (3661999/1000) = "1:01:01.99" := by
  refine ⟨?_, ?_, ?_, ?_⟩ <;> decide

/-- C4: a segment whose words field is missing or empty yields exactly the
sentence-mode entry under every display mode, both per segment and inside
any surrounding segment list, and buildSubtitleEntries is total. -/
theorem c4_sentence_fallback (cfg : StyleConfig) (s : Subtitle)
    (h : s.words = none ∨ s.words = some []) :
    segmentEntries cfg s =
      [{ text := jsTrim s.text, startTime := s.startTime, endTime := s.endTime }] ∧
    ∀ pre post : List Subtitle,
      buildSubtitleEntries (pre ++ s :: post) cfg =
        buildSubtitleEntries pre cfg ++
          { text := jsTrim s.text, startTime := s.startTime, endTime := s.endTime } ::
            buildSubtitleEntries post cfg := by
  have hseg : segmentEntries cfg s =
      [{ text := jsTrim s.text, startTime := s.startTime, endTime := s.endTime }] := by
    rcases h with h | h <;> cases hm : cfg.displayMode <;>
      simp [segmentEntries, hm, h, sentenceEntry]
  refine ⟨hseg, fun pre post => ?_⟩
  simp [buildSubtitleEntries, hseg]

/-- C4 witness: a wordless segment in word mode inside a list. -/
theorem c4_sentence_fallback_witness :
    ((⟨"s", 1, 2, " hi ", none⟩ : Subtitle).words = none ∨
      (⟨"s", 1, 2, " hi ", none⟩ : Subtitle).words = some []) ∧
    (segmentEntries c9Cfg ⟨"s", 1, 2, " hi ", none⟩ =
      [{ text := jsTrim " hi ", startTime := 1, endTime := 2 }] ∧
    ∀ pre post : List Subtitle,
      buildSubtitleEntries (pre ++ (⟨"s", 1, 2, " hi ", none⟩ : Subtitle) :: post) c9Cfg =
        buildSubtitleEntries pre c9Cfg ++
          { text := jsTrim " hi ", startTime := 1, endTime := 2 } ::
            buildSubtitleEntries post c9Cfg) :=
  ⟨Or.inl rfl, c4_sentence_fallback c9Cfg ⟨"s", 1, 2, " hi ", none⟩ (Or.inl rfl)⟩

/-- C7 counterexample: a six-character input made of non-hex characters is not
six hex digits, yet the converter does not return the opaque-white fallback:
it passes the junk through. -/
theorem c7_nonhex_passthrough_counterexample :
    (∃ c ∈ replaceFirst "GGGGGG".data '#', isHexDigitChar c = false) ∧
    hexToASSColor "GGGGGG" 1 = "&H00GGGGGG" ∧
    hexToASSColor "GGGGGG" 1 ≠ "&H00FFFFFF" := by
  refine ⟨⟨'G', ?_, ?_⟩, ?_, ?_⟩ <;> decide

/-- C7 (amended): the converter returns the fixed opaque-white fallback exactly
when the input has other than six characters after removing the first hash;
hex-digit membership is not checked. The function is total either way. -/
theorem c7_length_fallback (s : String) (op : ℚ)
    (h : (replaceFirst s.data '#').length ≠ 6) :
    hexToASSColor s op = "&H00FFFFFF" := by
  simp [hexToASSColor, h]

/-- C7 witness: a two-character input falls back to opaque white. -/
theorem c7_length_fallback_witness :
    (replaceFirst "#ab".data '#').length ≠ 6 ∧
    hexToASSColor "#ab" (1/2) = "&H00FFFFFF" :=
  ⟨by decide, c7_length_fallback "#ab" (1/2) (by decide)⟩

/-- C8 counterexample: at yAlign 0 the JavaScript truthiness default replaces
0 by 75, so the emitted MarginV on a 1920-pixel-high video is 480, not the
round(1920 * (1 - 0/100)) = 1920 the claim requires. -/
theorem c8_yalign_zero_counterexample :
    assMarginV { c1Cfg with yAlign := 0 } 1920 = 480 ∧
    jsRound ((1920 : ℚ) * (1 - ({ c1Cfg with yAlign := 0 } : StyleConfig).yAlign / 100)) = 1920 ∧
    (480 : ℤ) ≠ 1920 := by
  refine ⟨?_, ?_, ?_⟩ <;> decide

/-- C8 (amended): for every yAlign in the half-open range (0, 100] and every
video height, the MarginV emitted in the ASS style header equals
round(videoHeight * (1 - yAlign/100)); yAlign 0 is excluded because the
source replaces the falsy 0 by the default 75. -/
theorem c8_marginv (cfg : StyleConfig) (videoHeight : ℚ)
    (h0 : 0 < cfg.yAlign) (h1 : cfg.yAlign ≤ 100) :
    assMarginV cfg videoHeight = jsRound (videoHeight * (1 - cfg.yAlign / 100)) := by
  have : cfg.yAlign ≠ 0 := ne_of_gt h0
  simp [assMarginV, jsOrQ, this]

/-- C8 witness: yAlign 75 on a 1920-pixel-high video gives MarginV 480. -/
theorem c8_marginv_witness :
    (0 : ℚ) < c1Cfg.yAlign ∧ c1Cfg.yAlign ≤ 100 ∧
    assMarginV c1Cfg 1920 = jsRound ((1920 : ℚ) * (1 - c1Cfg.yAlign / 100)) :=
  ⟨by decide, by decide, c8_marginv c1Cfg 1920 (by decide) (by decide)⟩

theorem wordEntries_chain (e : ℚ) : ∀ (ws : List Word),
    List.Chain' (fun a b => a.endTime = min b.startTime e) (wordEntries e ws) := by
  intro ws
  induction ws with
  | nil => simp [wordEntries]
  | cons w ws ih =>
    cases ws with
    | nil => simp [wordEntries]
    | cons w' ws' =>
      rw [wordEntries]
      refine List.chain'_cons'.mpr ⟨?_, ih⟩
      intro y hy
      cases ws' <;> simp [wordEntries] at hy <;> simp [← hy]

theorem wordEntries_ne_nil (e : ℚ) (w : Word) (ws : List Word) :
    wordEntries e (w :: ws) ≠ [] := by
  cases ws <;> simp [wordEntries]

theorem wordEntries_getLast (e : ℚ) : ∀ (ws : List Word) (h : wordEntries e ws ≠ []),
    ((wordEntries e ws).getLast h).endTime = e := by
  intro ws
  induction ws with
  | nil => intro h; simp [wordEntries] at h
  | cons w ws ih =>
    intro h
    cases ws with
    | nil => simp [wordEntries]
    | cons w' ws' =>
      simp only [wordEntries]
      rw [List.getLast_cons (wordEntries_ne_nil e w' ws')]
      exact ih (wordEntries_ne_nil e w' ws')

theorem phraseLoop_ne_nil (wpl : Nat) (e : ℚ) :
    ∀ (rest : List Word) (w : Word) (chunk : List Word) (cs : ℚ) (wc : Nat),
      phraseLoop wpl e (w :: rest) chunk cs wc ≠ [] := by
  intro rest
  induction rest with
  | nil => intro w chunk cs wc; simp [phraseLoop]
  | cons next rest' ih =>
    intro w chunk cs wc
    rw [phraseLoop]
    split
    · simp
    · exact ih next _ _ _

theorem phraseLoop_head_start (wpl : Nat) (e : ℚ) :
    ∀ (rest : List Word) (w : Word) (chunk : List Word) (cs : ℚ) (wc : Nat),
      ((phraseLoop wpl e (w :: rest) chunk cs wc).head?).map SubtitleEntry.startTime =
        some (chunkStartOf chunk w cs) := by
  intro rest
  induction rest with
  | nil => intro w chunk cs wc; simp [phraseLoop]
  | cons next rest' ih =>
    intro w chunk cs wc
    rw [phraseLoop]
    split
    · simp
    · rw [ih next (chunk ++ [w]) _ _]
      simp [chunkStartOf]

theorem phraseLoop_chain (wpl : Nat) (e : ℚ) :
    ∀ (ws chunk : List Word) (cs : ℚ) (wc : Nat),
      List.Chain' (fun a b => a.endTime = min b.startTime e)
        (phraseLoop wpl e ws chunk cs wc) := by
  intro ws
  induction ws with
  | nil => intro chunk cs wc; simp [phraseLoop]
  | cons w rest ih =>
    intro chunk cs wc
    cases rest with
    | nil => simp [phraseLoop]
    | cons next rest' =>
      rw [phraseLoop]
      split
      · refine List.chain'_cons'.mpr ⟨?_, ih [] (chunkStartOf chunk w cs) 0⟩
        intro y hy
        have hh := phraseLoop_head_start wpl e rest' next [] (chunkStartOf chunk w cs) 0
        rw [Option.mem_def] at hy
        rw [hy] at hh
        simp [chunkStartOf] at hh
        simp [← hh]
      · exact ih (chunk ++ [w]) _ _

theorem phraseLoop_getLast (wpl : Nat) (e : ℚ) :
    ∀ (ws chunk : List Word) (cs : ℚ) (wc : Nat)
      (h : phraseLoop wpl e ws chunk cs wc ≠ []),
      ((phraseLoop wpl e ws chunk cs wc).getLast h).endTime = e := by
  intro ws
  induction ws with
  | nil => intro chunk cs wc h; simp [phraseLoop] at h
  | cons w rest ih =>
    intro chunk cs wc h
    cases rest with
    | nil => simp [phraseLoop]
    | cons next rest' =>
      revert h
      rw [phraseLoop]
      split
      · intro h
        rw [List.getLast_cons (phraseLoop_ne_nil wpl e rest' next [] _ 0)]
        exact ih [] _ 0 _
      · intro h
        exact ih (chunk ++ [w]) _ _ _

/-- C2: in word and phrase mode, over a segment with a non-empty word list,
every entry but the last ends exactly at min(start of the next emitted unit,
segment end) — adjacent entries start at the immediately following word — and
the last entry ends exactly at the segment end. -/
theorem c2_gap_fill (cfg : StyleConfig) (s : Subtitle) (ws : List Word)
    (hw : s.words = some ws) (hne : ws ≠ [])
    (hm : cfg.displayMode = DisplayMode.word ∨ cfg.displayMode = DisplayMode.phrase) :
    List.Chain' (fun a b => a.endTime = min b.startTime s.endTime) (segmentEntries cfg s) ∧
    ∀ h : segmentEntries cfg s ≠ [],
      ((segmentEntries cfg s).getLast h).endTime = s.endTime := by
  obtain ⟨w, ws0, rfl⟩ : ∃ w ws0, ws = w :: ws0 := by
    cases ws with
    | nil => exact absurd rfl hne
    | cons w ws0 => exact ⟨w, ws0, rfl⟩
  rcases hm with hm | hm
  · have hseg : segmentEntries cfg s = wordEntries s.endTime (w :: ws0) := by
      simp [segmentEntries, hm, hw]
    rw [hseg]
    exact ⟨wordEntries_chain s.endTime (w :: ws0), fun h => wordEntries_getLast s.endTime _ h⟩
  · have hseg : segmentEntries cfg s =
        phraseLoop (wordsPerLineOf cfg) s.endTime (w :: ws0) [] w.startTime 0 := by
      simp [segmentEntries, hm, hw]
    rw [hseg]
    exact ⟨phraseLoop_chain (wordsPerLineOf cfg) s.endTime (w :: ws0) [] w.startTime 0,
      fun h => phraseLoop_getLast (wordsPerLineOf cfg) s.endTime (w :: ws0) [] w.startTime 0 h⟩

/-- C2 witness: the gap-fill shape evaluated on the four-word segment in
phrase mode. -/
theorem c2_gap_fill_witness :
    c1Seg.words = some [{ text := "a", startTime := 0, endTime := 1 },
                        { text := "b;", startTime := 1, endTime := 2 },
                        { text := "c", startTime := 2, endTime := 3 },
                        { text := "d", startTime := 3, endTime := 4 }] ∧
    ([{ text := "a", startTime := 0, endTime := 1 },
      { text := "b;", startTime := 1, endTime := 2 },
      { text := "c", startTime := 2, endTime := 3 },
      { text := "d", startTime := 3, endTime := 4 }] : List Word) ≠ [] ∧
    (c1Cfg.displayMode = DisplayMode.word ∨ c1Cfg.displayMode = DisplayMode.phrase) ∧
    (List.Chain' (fun a b => a.endTime = min b.startTime c1Seg.endTime)
        (segmentEntries c1Cfg c1Seg) ∧
      ∀ h : segmentEntries c1Cfg c1Seg ≠ [],
        ((segmentEntries c1Cfg c1Seg).getLast h).endTime = c1Seg.endTime) :=
  ⟨rfl, by decide, Or.inr rfl,
    c2_gap_fill c1Cfg c1Seg _ rfl (by decide) (Or.inr rfl)⟩

theorem phraseLoop_map_text (wpl : Nat) (e : ℚ) :
    ∀ (ws chunk : List Word) (cs : ℚ) (wc : Nat),
      (phraseLoop wpl e ws chunk cs wc).map SubtitleEntry.text =
        (phraseChunks wpl ws chunk wc).map joinTrimmed := by
  intro ws
  induction ws with
  | nil => intro chunk cs wc; simp [phraseLoop, phraseChunks]
  | cons w rest ih =>
    intro chunk cs wc
    cases rest with
    | nil => simp [phraseLoop, phraseChunks]
    | cons next rest' =>
      by_cases hb : exportBreak wpl w (wc + 1) <;>
        simp [phraseLoop, phraseChunks, hb, ih]

theorem phraseChunks_size (wpl : Nat) :
    ∀ (ws chunk : List Word) (wc : Nat), wc = chunk.length → wc < wpl →
      ∀ c ∈ phraseChunks wpl ws chunk wc, c.length ≤ wpl := by
  intro ws
  induction ws with
  | nil => intro chunk wc _ _ c hc; simp [phraseChunks] at hc
  | cons w rest ih =>
    intro chunk wc hlen hlt c hc
    cases rest with
    | nil =>
      simp [phraseChunks] at hc
      subst hc
      simp [hlen] at hlt ⊢
      omega
    | cons next rest' =>
      by_cases hb : exportBreak wpl w (wc + 1)
      · rw [phraseChunks, if_pos hb] at hc
        rcases List.mem_cons.mp hc with hc | hc
        · subst hc; simp [hlen] at hlt ⊢; omega
        · exact ih [] 0 rfl (by omega) c hc
      · rw [phraseChunks, if_neg hb] at hc
        have hlt' : wc + 1 < wpl := by
          rcases Nat.lt_or_ge (wc + 1) wpl with h | h
          · exact h
          · exact absurd (Or.inl h) hb
        exact ih (chunk ++ [w]) (wc + 1) (by simp [hlen]) hlt' c hc

/-- C5: in phrase mode over a segment with a non-empty word list and a
positive configured wordsPerLine, the emitted entry texts are exactly the
joined chunk texts, and every chunk except possibly the last holds at most
wordsPerLine words. -/
theorem c5_phrase_chunk_bound (cfg : StyleConfig) (s : Subtitle)
    (w : Word) (ws : List Word) (n : Nat)
    (hm : cfg.displayMode = DisplayMode.phrase) (hw : s.words = some (w :: ws))
    (hn : cfg.wordsPerLine = some n) (hpos : 0 < n) :
    (segmentEntries cfg s).map SubtitleEntry.text =
      (phraseChunks n (w :: ws) [] 0).map joinTrimmed ∧
    ∀ c ∈ (phraseChunks n (w :: ws) [] 0).dropLast, c.length ≤ n := by
  have hwpl : wordsPerLineOf cfg = n := by
    simp [wordsPerLineOf, jsOrNat, hn, Nat.pos_iff_ne_zero.mp hpos]
  constructor
  · have hseg : segmentEntries cfg s =
        phraseLoop (wordsPerLineOf cfg) s.endTime (w :: ws) [] w.startTime 0 := by
      simp [segmentEntries, hm, hw]
    rw [hseg, hwpl]
    exact phraseLoop_map_text n s.endTime (w :: ws) [] w.startTime 0
  · intro c hc
    exact phraseChunks_size n (w :: ws) [] 0 rfl hpos c (List.dropLast_subset _ hc)

/-- C5 witness: the four-word phrase-mode segment with wordsPerLine 3. -/
theorem c5_phrase_chunk_bound_witness :
    c1Cfg.displayMode = DisplayMode.phrase ∧
    c1Seg.words = some ({ text := "a", startTime := 0, endTime := 1 } ::
      [{ text := "b;", startTime := 1, endTime := 2 },
       { text := "c", startTime := 2, endTime := 3 },
       { text := "d", startTime := 3, endTime := 4 }]) ∧
    c1Cfg.wordsPerLine = some 3 ∧ 0 < 3 ∧
    ((segmentEntries c1Cfg c1Seg).map SubtitleEntry.text =
      (phraseChunks 3 ({ text := "a", startTime := 0, endTime := 1 } ::
        [{ text := "b;", startTime := 1, endTime := 2 },
         { text := "c", startTime := 2, endTime := 3 },
         { text := "d", startTime := 3, endTime := 4 }]) [] 0).map joinTrimmed ∧
    ∀ c ∈ (phraseChunks 3 ({ text := "a", startTime := 0, endTime := 1 } ::
        [{ text := "b;", startTime := 1, endTime := 2 },
         { text := "c", startTime := 2, endTime := 3 },
         { text := "d", startTime := 3, endTime := 4 }]) [] 0).dropLast, c.length ≤ 3) :=
  ⟨rfl, rfl, rfl, by decide,
    c5_phrase_chunk_bound c1Cfg c1Seg _ _ 3 rfl rfl rfl (by decide)⟩

theorem replaceFirst_cons_hash (cs : List Char) : replaceFirst ('#' :: cs) '#' = cs := by
  simp [replaceFirst]

theorem replaceFirst_of_not_mem : ∀ (cs : List Char) (c : Char), c ∉ cs →
    replaceFirst cs c = cs := by
  intro cs c
  induction cs with
  | nil => intro _; rfl
  | cons x xs ih =>
    intro h
    rw [List.mem_cons] at h
    push_neg at h
    have hx : ¬ x = c := fun he => h.1 he.symm
    simp [replaceFirst, hx, ih h.2]

theorem jsRound_byte_range (op : ℚ) (h0 : 0 ≤ op) (h1 : op ≤ 1) :
    0 ≤ jsRound ((1 - op) * 255) ∧ jsRound ((1 - op) * 255) ≤ 255 := by
  unfold jsRound
  constructor
  · apply Int.le_floor.mpr
    push_cast
    nlinarith
  · have hlt : ⌊((1 : ℚ) - op) * 255 + 1/2⌋ < (256 : ℤ) := by
      apply Int.floor_lt.mpr
      push_cast
      nlinarith
    omega

theorem natToHexLower_byte (n : Nat) (hn : n < 256) :
    natToHexLower n =
      if n < 16 then [hexDigitLower n]
      else [hexDigitLower (n / 16), hexDigitLower (n % 16)] := by
  unfold natToHexLower
  by_cases h16 : n < 16
  · simp [natToHexAux, h16]
  · obtain ⟨k, rfl⟩ : ∃ k, n = k + 1 := ⟨n - 1, by omega⟩
    have hdiv : (k + 1) / 16 < 16 := by omega
    simp [natToHexAux, h16, hdiv]

theorem upper_hexDigitUpper : ∀ m, m < 16 →
    Char.toUpper (hexDigitUpper m) = hexDigitUpper m := by decide

theorem hexBytePair_upper (n : Nat) (hn : n < 256) :
    (hexBytePair n).map Char.toUpper = hexBytePair n := by
  simp only [hexBytePair, List.map_cons, List.map_nil]
  rw [upper_hexDigitUpper (n / 16) (by omega), upper_hexDigitUpper (n % 16) (by omega)]

theorem alpha_pair_eq (i : ℤ) (h0 : 0 ≤ i) (h1 : i ≤ 255) :
    (jsPadStart 2 '0' (jsIntToHex i)).map Char.toUpper = hexBytePair i.toNat := by
  have hneg : ¬ i < 0 := by omega
  rw [jsIntToHex, if_neg hneg]
  rw [natToHexLower_byte i.toNat (by omega)]
  by_cases h16 : i.toNat < 16
  · rw [if_pos h16]
    have hdiv : i.toNat / 16 = 0 := by omega
    have hmod : i.toNat % 16 = i.toNat := by omega
    simp only [jsPadStart, List.length_cons, List.length_nil, hexBytePair, hdiv, hmod]
    simp only [show (2 : Nat) - (0 + 1) = 1 from rfl, List.replicate, List.cons_append,
      List.nil_append, List.map_cons, List.map_nil]
    rw [show Char.toUpper '0' = hexDigitUpper 0 from by decide]
    rfl
  · rw [if_neg h16]
    simp only [jsPadStart, List.length_cons, List.length_nil, hexBytePair]
    simp only [show (2 : Nat) - (0 + 1 + 1) = 0 from rfl, List.replicate, List.nil_append,
      List.map_cons, List.map_nil]
    rfl

theorem hexToASSColor_spec (s : String) (cs : List Char) (op : ℚ)
    (hcs : replaceFirst s.data '#' = cs) (hlen : cs.length = 6)
    (h0 : 0 ≤ op) (h1 : op ≤ 1) :
    hexToASSColor s op =
      String.mk ('&' :: 'H' ::
        (specAlphaByte op ++
          ((cs.drop 4).take 2).map Char.toUpper ++
          ((cs.drop 2).take 2).map Char.toUpper ++
          (cs.take 2).map Char.toUpper)) := by
  have hbound := jsRound_byte_range op h0 h1
  unfold hexToASSColor
  rw [hcs]
  rw [if_neg (by omega)]
  simp only [List.map_cons, List.map_append]
  rw [show Char.toUpper '&' = '&' from by decide, show Char.toUpper 'H' = 'H' from by decide]
  rw [alpha_pair_eq _ hbound.1 hbound.2]
  rw [hexBytePair_upper _ (by omega)]
  rfl

/-- C6: on a six-hex-digit input (leading hash optional) and opacity in [0,1],
the converter emits the two-character marker, the alpha byte
round((1-opacity)*255) as two uppercase hex digits, then the blue, green and
red channel pairs in that reversed order, all uppercase; in particular white at
opacity 1 packs to opaque white and black at opacity 0.5 packs with alpha 80. -/
theorem c6_color_packing (s : String) (cs : List Char) (op : ℚ)
    (hfmt : s.data = '#' :: cs ∨ s.data = cs) (hlen : cs.length = 6)
    (hhex : ∀ c ∈ cs, isHexDigitChar c = true) (h0 : 0 ≤ op) (h1 : op ≤ 1) :
    hexToASSColor s op =
      String.mk ('&' :: 'H' ::
        (specAlphaByte op ++
          ((cs.drop 4).take 2).map Char.toUpper ++
          ((cs.drop 2).take 2).map Char.toUpper ++
          (cs.take 2).map Char.toUpper)) ∧
    hexToASSColor "#FFFFFF" 1 = "&H00FFFFFF" ∧
    hexToASSColor "#000000" (1/2) = "&H80000000" := by
  refine ⟨?_, by decide, by decide⟩
  have hcs : replaceFirst s.data '#' = cs := by
    rcases hfmt with h | h
    · rw [h]; exact replaceFirst_cons_hash cs
    · rw [h]
      apply replaceFirst_of_not_mem
      intro hmem
      have := hhex '#' hmem
      exact absurd this (by decide)
  exact hexToASSColor_spec s cs op hcs hlen h0 h1

/-- C6 witness: a lowercase hex color with a hash, packed at opacity 1/5. -/
theorem c6_color_packing_witness :
    ("#1a2b3c".data = '#' :: ['1', 'a', '2', 'b', '3', 'c'] ∨
      "#1a2b3c".data = ['1', 'a', '2', 'b', '3', 'c']) ∧
    (['1', 'a', '2', 'b', '3', 'c'] : List Char).length = 6 ∧
    (∀ c ∈ (['1', 'a', '2', 'b', '3', 'c'] : List Char), isHexDigitChar c = true) ∧
    (0 : ℚ) ≤ 1/5 ∧ (1 : ℚ)/5 ≤ 1 ∧
    (hexToASSColor "#1a2b3c" (1/5) =
      String.mk ('&' :: 'H' ::
        (specAlphaByte (1/5) ++
          (((['1', 'a', '2', 'b', '3', 'c'] : List Char).drop 4).take 2).map Char.toUpper ++
          (((['1', 'a', '2', 'b', '3', 'c'] : List Char).drop 2).take 2).map Char.toUpper ++
          ((['1', 'a', '2', 'b', '3', 'c'] : List Char).take 2).map Char.toUpper)) ∧
      hexToASSColor "#FFFFFF" 1 = "&H00FFFFFF" ∧
      hexToASSColor "#000000" (1/2) = "&H80000000") :=
  ⟨Or.inl rfl, rfl, by decide, by decide, by decide,
    c6_color_packing "#1a2b3c" ['1', 'a', '2', 'b', '3', 'c'] (1/5)
      (Or.inl rfl) rfl (by decide) (by decide) (by decide)⟩

/-- C10: a style configuration with background opacity 0 gets BorderStyle 1
(outline), yet its BackColour is packed with the truthiness default 0.6 in
place of the 0, whose alpha byte is 66. -/
theorem c10_zero_opacity_backcolour (cfg : StyleConfig)
    (h : cfg.backgroundOpacity = 0) :
    assBorderStyle cfg = 1 ∧
    assBackColor cfg = hexToASSColor (jsOrStr cfg.backgroundColor "#000000") (3/5) ∧
    ∀ cs : List Char,
      replaceFirst (jsOrStr cfg.backgroundColor "#000000").data '#' = cs →
      cs.length = 6 →
      (assBackColor cfg).data.take 4 = ['&', 'H', '6', '6'] := by
  have hback : assBackColor cfg =
      hexToASSColor (jsOrStr cfg.backgroundColor "#000000") (3/5) := by
    simp [assBackColor, h, jsOrQ]
  refine ⟨by simp [assBorderStyle, h], hback, ?_⟩
  intro cs hcs hlen
  rw [hback, hexToASSColor_spec _ cs (3/5) hcs hlen (by norm_num) (by norm_num)]
  rw [show specAlphaByte (3/5) = ['6', '6'] from by decide]
  simp

/-- C10 witness: the configuration with black background and opacity 0. -/
theorem c10_zero_opacity_backcolour_witness :
    c1Cfg.backgroundOpacity = 0 ∧
    assBorderStyle c1Cfg = 1 ∧
    assBackColor c1Cfg = hexToASSColor (jsOrStr c1Cfg.backgroundColor "#000000") (3/5) ∧
    (assBackColor c1Cfg).data.take 4 = ['&', 'H', '6', '6'] :=
  ⟨rfl, (c10_zero_opacity_backcolour c1Cfg rfl).1,
    (c10_zero_opacity_backcolour c1Cfg rfl).2.1,
    (c10_zero_opacity_backcolour c1Cfg rfl).2.2
      ['0', '0', '0', '0', '0', '0'] (by decide) rfl⟩

theorem wordEntries_map_start (e : ℚ) : ∀ ws : List Word,
    (wordEntries e ws).map SubtitleEntry.startTime = ws.map Word.startTime := by
  intro ws
  induction ws with
  | nil => simp [wordEntries]
  | cons w ws ih =>
    cases ws with
    | nil => simp [wordEntries]
    | cons w' ws' => simp [wordEntries] at ih ⊢; exact ih

theorem chunkStartOf_cases (chunk : List Word) (w : Word) (cs : ℚ) :
    chunkStartOf chunk w cs = cs ∨ chunkStartOf chunk w cs = w.startTime := by
  unfold chunkStartOf
  split
  · exact Or.inr rfl
  · exact Or.inl rfl

theorem phraseLoop_start_mem (wpl : Nat) (e : ℚ) :
    ∀ (ws chunk : List Word) (cs : ℚ) (wc : Nat),
      ∀ en ∈ phraseLoop wpl e ws chunk cs wc,
        en.startTime = cs ∨ en.startTime ∈ ws.map Word.startTime := by
  intro ws
  induction ws with
  | nil => intro chunk cs wc en hen; simp [phraseLoop] at hen
  | cons w rest ih =>
    intro chunk cs wc en hen
    have hcases := chunkStartOf_cases chunk w cs
    cases rest with
    | nil =>
      simp [phraseLoop] at hen
      subst hen
      rcases hcases with h | h
      · exact Or.inl h
      · exact Or.inr (by simp [h])
    | cons next rest' =>
      by_cases hb : exportBreak wpl w (wc + 1)
      · rw [phraseLoop, if_pos hb] at hen
        rcases List.mem_cons.mp hen with hen | hen
        · subst hen
          rcases hcases with h | h
          · exact Or.inl h
          · exact Or.inr (by simp [h])
        · rcases ih [] (chunkStartOf chunk w cs) 0 en hen with h | h
          · rcases hcases with h' | h'
            · exact Or.inl (h.trans h')
            · exact Or.inr (by simp [h, h'])
          · exact Or.inr (by rw [List.map_cons]; exact List.mem_cons_of_mem _ h)
      · rw [phraseLoop, if_neg hb] at hen
        rcases ih (chunk ++ [w]) (chunkStartOf chunk w cs) (wc + 1) en hen with h | h
        · rcases hcases with h' | h'
          · exact Or.inl (h.trans h')
          · exact Or.inr (by simp [h, h'])
        · exact Or.inr (by rw [List.map_cons]; exact List.mem_cons_of_mem _ h)

theorem phraseLoop_pairwise (wpl : Nat) (e : ℚ) :
    ∀ (ws chunk : List Word) (cs : ℚ) (wc : Nat),
      List.Pairwise (fun a b : Word => a.startTime ≤ b.startTime) ws →
      (∀ w' ∈ ws, cs ≤ w'.startTime) →
      List.Pairwise (fun a b : SubtitleEntry => a.startTime ≤ b.startTime)
        (phraseLoop wpl e ws chunk cs wc) := by
  intro ws
  induction ws with
  | nil => intro chunk cs wc _ _; simp [phraseLoop]
  | cons w rest ih =>
    intro chunk cs wc hsorted hlb
    have hsorted' := (List.pairwise_cons.mp hsorted).2
    have hw := (List.pairwise_cons.mp hsorted).1
    have hlb' : ∀ w' ∈ rest, chunkStartOf chunk w cs ≤ w'.startTime := by
      intro w' hw'
      rcases chunkStartOf_cases chunk w cs with h | h
      · rw [h]; exact hlb w' (List.mem_cons_of_mem w hw')
      · rw [h]; exact hw w' hw'
    cases rest with
    | nil => simp [phraseLoop]
    | cons next rest' =>
      by_cases hb : exportBreak wpl w (wc + 1)
      · rw [phraseLoop, if_pos hb]
        refine List.pairwise_cons.mpr ⟨?_, ih [] (chunkStartOf chunk w cs) 0
          hsorted' hlb'⟩
        intro en hen
        rcases phraseLoop_start_mem wpl e (next :: rest') [] (chunkStartOf chunk w cs) 0
          en hen with h | h
        · simp [h]
        · rcases List.mem_map.mp h with ⟨w', hw', hww⟩
          simp only
          rw [← hww]
          exact hlb' w' hw'
      · rw [phraseLoop, if_neg hb]
        exact ih (chunk ++ [w]) (chunkStartOf chunk w cs) (wc + 1)
          hsorted' hlb'

theorem segmentEntries_start_bounds (cfg : StyleConfig) (s : Subtitle)
    (hrange : s.startTime ≤ s.endTime) (hwb : wordsInRange s) :
    ∀ en ∈ segmentEntries cfg s,
      s.startTime ≤ en.startTime ∧ en.startTime ≤ s.endTime := by
  intro en hen
  have hsent : en ∈ [sentenceEntry s] →
      s.startTime ≤ en.startTime ∧ en.startTime ≤ s.endTime := by
    intro h
    simp at h
    subst h
    exact ⟨le_refl _, hrange⟩
  cases hm : cfg.displayMode with
  | sentence => exact hsent (by rwa [segmentEntries, hm] at hen)
  | word =>
    rw [segmentEntries, hm] at hen
    cases hw : s.words with
    | none => exact hsent (by rwa [hw] at hen)
    | some ws =>
      rw [hw] at hen
      cases ws with
      | nil => exact hsent hen
      | cons w ws0 =>
        have : en.startTime ∈ (wordEntries s.endTime (w :: ws0)).map SubtitleEntry.startTime :=
          List.mem_map_of_mem SubtitleEntry.startTime hen
        rw [wordEntries_map_start] at this
        rcases List.mem_map.mp this with ⟨w', hw', hww⟩
        have := hwb w' (by rw [hw]; simpa using hw')
        rw [← hww]
        exact this
  | phrase =>
    rw [segmentEntries, hm] at hen
    cases hw : s.words with
    | none => exact hsent (by rwa [hw] at hen)
    | some ws =>
      rw [hw] at hen
      cases ws with
      | nil => exact hsent hen
      | cons w ws0 =>
        rcases phraseLoop_start_mem (wordsPerLineOf cfg) s.endTime (w :: ws0) []
          w.startTime 0 en hen with h | h
        · rw [h]
          exact hwb w (by rw [hw]; simp)
        · rcases List.mem_map.mp h with ⟨w', hw', hww⟩
          rw [← hww]
          exact hwb w' (by rw [hw]; simpa using hw')

theorem segmentEntries_pairwise (cfg : StyleConfig) (s : Subtitle)
    (hsorted : wordsSorted s) :
    List.Pairwise (fun a b : SubtitleEntry => a.startTime ≤ b.startTime)
      (segmentEntries cfg s) := by
  have hsent : List.Pairwise (fun a b : SubtitleEntry => a.startTime ≤ b.startTime)
      [sentenceEntry s] := by simp
  cases hm : cfg.displayMode with
  | sentence => rw [segmentEntries, hm]; exact hsent
  | word =>
    rw [segmentEntries, hm]
    cases hw : s.words with
    | none => exact hsent
    | some ws =>
      cases ws with
      | nil => exact hsent
      | cons w ws0 =>
        have hws : List.Pairwise (fun a b : Word => a.startTime ≤ b.startTime) (w :: ws0) := by
          have := hsorted
          rwa [wordsSorted, hw, Option.getD_some] at this
        apply List.pairwise_map.mp
        rw [wordEntries_map_start]
        exact List.pairwise_map.mpr hws
  | phrase =>
    rw [segmentEntries, hm]
    cases hw : s.words with
    | none => exact hsent
    | some ws =>
      cases ws with
      | nil => exact hsent
      | cons w ws0 =>
        have hws : List.Pairwise (fun a b : Word => a.startTime ≤ b.startTime) (w :: ws0) := by
          have := hsorted
          rwa [wordsSorted, hw, Option.getD_some] at this
        apply phraseLoop_pairwise (wordsPerLineOf cfg) s.endTime (w :: ws0) [] w.startTime 0 hws
        intro w' hw'
        rcases List.mem_cons.mp hw' with h | h
        · rw [h]
        · exact (List.pairwise_cons.mp hws).1 w' h

theorem chain_sep_le : ∀ (s : Subtitle) (rest : List Subtitle),
    List.Chain' (fun a b : Subtitle => a.endTime ≤ b.startTime) (s :: rest) →
    (∀ x ∈ rest, x.startTime ≤ x.endTime) →
    ∀ s' ∈ rest, s.endTime ≤ s'.startTime := by
  intro s rest
  induction rest generalizing s with
  | nil => intro _ _ s' hs'; simp at hs'
  | cons b rest' ih =>
    intro hchain hranges s' hs'
    have hsb : s.endTime ≤ b.startTime := (List.chain'_cons.mp hchain).1
    rcases List.mem_cons.mp hs' with h | h
    · rw [h]; exact hsb
    · have hb := hranges b (List.mem_cons_self b rest')
      have := ih b (List.chain'_cons.mp hchain).2
        (fun x hx => hranges x (List.mem_cons_of_mem b hx)) s' h
      exact hsb.trans (hb.trans this)

/-- C9 counterexample: one segment — trivially ascending and non-overlapping —
whose words are out of order produces word-mode entries whose start times are
not ascending, so the claim fails without an assumption on the word lists. -/
theorem c9_unsorted_words_counterexample :
    (∀ s ∈ [c9Seg], s.startTime ≤ s.endTime) ∧
    List.Chain' (fun a b : Subtitle => a.endTime ≤ b.startTime) [c9Seg] ∧
    ¬ List.Pairwise (fun a b : SubtitleEntry => a.startTime ≤ b.startTime)
        (buildSubtitleEntries [c9Seg] c9Cfg) := by
  refine ⟨by decide, List.chain'_singleton c9Seg, ?_⟩
  intro h
  have h1 : buildSubtitleEntries [c9Seg] c9Cfg =
      [{ text := "w0", startTime := 5, endTime := 1 },
       { text := "w1", startTime := 1, endTime := 10 }] := by decide
  rw [h1] at h
  have := (List.pairwise_cons.mp h).1 { text := "w1", startTime := 1, endTime := 10 } (by simp)
  exact absurd this (by decide)

/-- C9 (amended): when segment time ranges are well-formed, ascending and
non-overlapping, and each word list is ordered by start time with starts
inside its segment's range, the entries of buildSubtitleEntries are sorted by
start time in ascending order for every display configuration. -/
theorem c9_entry_ordering (subs : List Subtitle) (cfg : StyleConfig)
    (hrange : ∀ s ∈ subs, s.startTime ≤ s.endTime)
    (hwords : ∀ s ∈ subs, wordsSorted s ∧ wordsInRange s)
    (hsep : List.Chain' (fun a b : Subtitle => a.endTime ≤ b.startTime) subs) :
    List.Pairwise (fun a b : SubtitleEntry => a.startTime ≤ b.startTime)
      (buildSubtitleEntries subs cfg) := by
  induction subs with
  | nil => simp [buildSubtitleEntries]
  | cons s rest ih =>
    rw [buildSubtitleEntries_cons]
    apply List.pairwise_append.mpr
    refine ⟨segmentEntries_pairwise cfg s (hwords s (List.mem_cons_self s rest)).1,
      ih (fun x hx => hrange x (List.mem_cons_of_mem s hx))
        (fun x hx => hwords x (List.mem_cons_of_mem s hx))
        (List.Chain'.tail hsep), ?_⟩
    intro x hx y hy
    have hxb := segmentEntries_start_bounds cfg s (hrange s (List.mem_cons_self s rest))
      (hwords s (List.mem_cons_self s rest)).2 x hx
    rcases List.mem_flatMap.mp hy with ⟨s', hs', hys'⟩
    have hyb := segmentEntries_start_bounds cfg s' (hrange s' (List.mem_cons_of_mem s hs'))
      (hwords s' (List.mem_cons_of_mem s hs')).2 y hys'
    have hsep' := chain_sep_le s rest hsep
      (fun x hx => hrange x (List.mem_cons_of_mem s hx)) s' hs'
    exact hxb.2.trans (hsep'.trans hyb.1)

/-- C9 witness: two ascending non-overlapping segments, the first with sorted
in-range words, in word mode. -/
theorem c9_entry_ordering_witness :
    (∀ s ∈ [c9SegA, c9SegB], s.startTime ≤ s.endTime) ∧
    (∀ s ∈ [c9SegA, c9SegB], wordsSorted s ∧ wordsInRange s) ∧
    List.Chain' (fun a b : Subtitle => a.endTime ≤ b.startTime) [c9SegA, c9SegB] ∧
    List.Pairwise (fun a b : SubtitleEntry => a.startTime ≤ b.startTime)
      (buildSubtitleEntries [c9SegA, c9SegB] c9Cfg) := by
  have hchain : List.Chain' (fun a b : Subtitle => a.endTime ≤ b.startTime)
      [c9SegA, c9SegB] := by
    rw [List.chain'_cons]
    exact ⟨by decide, List.chain'_singleton _⟩
  exact ⟨by decide, by decide, hchain,
    c9_entry_ordering [c9SegA, c9SegB] c9Cfg (by decide) (by decide) hchain⟩

end SubGen
